import Mathlib

/-!
Verification of the Grant-tagging repository: tag classification and
synonym-aware filtering of grant records.

The repository ships a React/TypeScript frontend (embedded below from
`frontend/src/components/AdminTab.tsx` and `GrantsTable.tsx`) and a Flask
backend that is described by the specification but whose source is not part
of the frontend tree; backend components (Taxonomy, Classifier,
QueryExpander, FilterEngine, ingestion validation) are modelled from the
specification, each marked `Modelled from the spec:` in its doc comment.

Strings are treated at the logical level (`String.data : List Char`); the
JavaScript/Python primitives `trim`, `toLowerCase`, `split` and `join` are
given explicit executable models below.
-/

namespace GrantTagging

/-- Whitespace test used by the trimming model (space, tab, newline,
carriage return — the ASCII whitespace relevant to the repository's data). -/
def isWs (c : Char) : Bool := c = ' ' || c = '\t' || c = '\n' || c = '\r'

/-- Drop leading and trailing whitespace from a character list. -/
def trimChars (l : List Char) : List Char :=
  ((l.dropWhile isWs).reverse.dropWhile isWs).reverse

/-- Model of JavaScript `String.prototype.trim()` / Python `str.strip()`. -/
def strTrim (s : String) : String := String.mk (trimChars s.data)

/-- Lower-cased character list of a string: model of case-insensitive
matching (`toLowerCase()` / the `i` regular-expression flag). -/
def lowerChars (s : String) : List Char := s.data.map Char.toLower

/-- Normal form used by the Taxonomy for case-insensitive, whitespace-robust
tag comparison: trim, then lower-case. -/
def normalize (s : String) : String := String.mk ((trimChars s.data).map Char.toLower)

/-- Does the first list start with the second? -/
def startsWithChars : List Char → List Char → Bool
  | _, [] => true
  | [], _ :: _ => false
  | h :: hs, n :: ns => (h = n) && startsWithChars hs ns

/-- Does `needle` occur as a contiguous sublist of the second argument?
Model of case-sensitive substring search; callers lower-case both sides
first for case-insensitive search. -/
def containsSub (needle : List Char) : List Char → Bool
  | [] => needle.isEmpty
  | c :: rest => startsWithChars (c :: rest) needle || containsSub needle rest

/-- Split a character list at every occurrence of `sep`; `acc` holds the
current chunk reversed. -/
def splitOnCharAux (sep : Char) : List Char → List Char → List (List Char)
  | [], acc => [acc.reverse]
  | c :: cs, acc =>
    if c = sep then acc.reverse :: splitOnCharAux sep cs []
    else splitOnCharAux sep cs (c :: acc)

/-- Model of JavaScript `String.prototype.split(sep)` / Python `str.split(sep)`
for a one-character separator. -/
def splitOnChar (sep : Char) (s : String) : List String :=
  (splitOnCharAux sep s.data []).map String.mk

/-- Model of JavaScript `Array.prototype.join(",")` as used in
`GrantsTable.tsx` (`currentTags.join(",")`): elements separated by a single
comma, no added whitespace. -/
def jsJoin : List String → String
  | [] => ""
  | [t] => t
  | t :: ts => t ++ "," ++ jsJoin ts

/-! ### Taxonomy -/

/-- Modelled from the spec: the backend Taxonomy component is not in the
frontend tree. Holds the closed list of canonical tags and the stored
direction of the synonym relation (a mapping from a canonical tag to the
list of tags it declares as synonyms). -/
structure Taxonomy where
  tags : List String
  synMap : List (String × List String)

/-- Modelled from the spec: the stored direction of the missing backend
Taxonomy's synonym relation — the list of synonym names that canonical tag
`t` itself declares in the loaded configuration. -/
def Taxonomy.storedSyn (tx : Taxonomy) (t : String) : List String :=
  (tx.synMap.filter (fun p => p.1 = t)).flatMap (fun p => p.2)

/-- Modelled from the spec: the symmetric synonym lookup of the missing
backend Taxonomy. "If A lists B as a synonym, B is treated as listing A,
regardless of storage direction", so the stored mapping is symmetrised:
the synonyms of `t` are the tags `t` lists, together with every tag that
lists `t`. -/
def Taxonomy.synList (tx : Taxonomy) (t : String) : List String :=
  tx.storedSyn t ++ (tx.synMap.filter (fun p => t ∈ p.2)).map (fun p => p.1)

/-- The symmetric synonym set of a tag, as a `Finset`. -/
def Taxonomy.syn (tx : Taxonomy) (t : String) : Finset String :=
  (tx.synList t).toFinset

/-- Modelled from the spec: `Taxonomy.canonicalize` of the missing backend.
Normalises the input's casing/whitespace and returns the canonical tag with
the same normal form, or `none` for an unknown tag. -/
def canonicalize (tx : Taxonomy) (s : String) : Option String :=
  tx.tags.find? (fun t => normalize t = normalize s)

/-- Modelled from the spec: the Taxonomy's stated invariants — canonical
tags are pairwise distinct under case/whitespace normalisation, every tag
appearing in the synonym relation exists in the Taxonomy, and a tag is
never its own synonym. -/
def Taxonomy.WF (tx : Taxonomy) : Prop :=
  tx.tags.Pairwise (fun a b => normalize a ≠ normalize b) ∧
    ∀ p ∈ tx.synMap, p.1 ∈ tx.tags ∧ p.1 ∉ p.2 ∧ ∀ s ∈ p.2, s ∈ tx.tags

/-- Modelled from the spec: the "flatness" of the synonym relation (§4.3,
§9) — synonym groups are one-hop closed: a synonym of a synonym of `c` is
already `c` itself or one of `c`'s synonyms. The spec relies on this
property of the stored relation to guarantee idempotence of expansion. -/
def Taxonomy.Flat (tx : Taxonomy) : Prop :=
  ∀ c ∈ tx.tags, ∀ t ∈ tx.syn c, tx.syn t ⊆ insert c (tx.syn c)

instance (tx : Taxonomy) : Decidable tx.WF := by
  unfold Taxonomy.WF; infer_instance

instance (tx : Taxonomy) : Decidable tx.Flat := by
  unfold Taxonomy.Flat; infer_instance

/-- Canonicalize every element of a tag set, dropping unknown tags. -/
def canonSet (tx : Taxonomy) (s : Finset String) : Finset String :=
  s.biUnion (fun t => (canonicalize tx t).toFinset)

/-! ### Classifier -/

/-- Provenance of a classification result: remote model or local heuristic. -/
inductive Provenance where
  | model : Provenance
  | heuristic : Provenance
deriving DecidableEq

/-- Result of classifying one grant: a validated subset of the Taxonomy
plus a provenance flag. -/
structure ClassificationResult where
  tags : Finset String
  provenance : Provenance

/-- Modelled from the spec: the missing backend Classifier's response
validation — each candidate tag string returned by the remote model is
passed through `canonicalize`; candidates that fail canonicalization are
silently dropped. -/
def validateResponse (tx : Taxonomy) (cands : List String) : Finset String :=
  (cands.filterMap (canonicalize tx)).toFinset

/-- Does canonical tag `t` (its own name or any of the synonym names it
declares) appear as a case-insensitive substring of `text` (already
lower-cased)? The heuristic consults the stored direction of the synonym
relation: the spec's §8 scenario classifies "drip irrigation system for
soil conservation" to exactly `{Irrigation}`, which rules out matching a
tag through a reverse synonym edge. -/
def tagMatchesText (tx : Taxonomy) (text : List Char) (t : String) : Bool :=
  containsSub (lowerChars t) text ||
    (tx.storedSyn t).any (fun s => containsSub (lowerChars s) text)

/-- Modelled from the spec: the missing backend Classifier's heuristic
fallback — a canonical tag is included iff its own name or any of its
synonym names occurs as a case-insensitive substring of the concatenation
of name and description. -/
def heuristicClassify (tx : Taxonomy) (name description : String) : Finset String :=
  (tx.tags.filter
    (tagMatchesText tx (lowerChars (name ++ " " ++ description)))).toFinset

/-- Modelled from the spec: the missing backend Classifier.
`response = some cands` models a successful remote-model call whose parsed
output is the raw candidate list `cands`; `response = none` models any
failure of the remote path (timeout, network fault, malformed body, or no
endpoint configured), upon which control falls through to the heuristic. -/
def classify (tx : Taxonomy) (response : Option (List String))
    (name description : String) : ClassificationResult :=
  match response with
  | some cands => { tags := validateResponse tx cands, provenance := .model }
  | none => { tags := heuristicClassify tx name description, provenance := .heuristic }

/-! ### QueryExpander -/

/-- Modelled from the spec: the missing backend QueryExpander. Each explicit
tag is canonicalized (unknown tags dropped); with `includeSynonyms = false`
the result is the canonicalized explicit set unchanged, with `true` it is
that set united with the synonym set of every explicit tag (one hop). -/
def expand (tx : Taxonomy) (explicitTags : Finset String)
    (includeSynonyms : Bool) : Finset String :=
  let c := canonSet tx explicitTags
  if includeSynonyms then c ∪ c.biUnion tx.syn else c

/-! ### Grants and the FilterEngine -/

/-- A stored grant: non-emptiness of name/description is enforced at
ingestion, tags are a set drawn from the Taxonomy. -/
structure Grant where
  name : String
  description : String
  tags : Finset String

/-- Modelled from the spec: the missing backend FilterEngine predicate.
If the effective tag set is empty every grant matches (no filter applied);
otherwise a grant matches iff the effective set is a subset of the grant's
tags (conjunctive AND semantics). -/
def FilterEngine.matches (g : Grant) (effectiveTags : Finset String) : Bool :=
  if effectiveTags = ∅ then true else decide (effectiveTags ⊆ g.tags)

/-! ### Ingestion entrypoint -/

/-- Modelled from the spec: the missing backend ingestion validation —
`name` and `description` must be non-empty after trimming. -/
def validGrantInput (name description : String) : Bool :=
  strTrim name ≠ "" && strTrim description ≠ ""

/-- Per-item outcome of ingestion: the grant as persisted, or a validation
error reported for that item. -/
inductive IngestOutcome where
  | persisted : Grant → IngestOutcome
  | validationError : IngestOutcome

/-- Modelled from the spec: the missing backend ingestion of a single
`(name, description)` pair — validation first (rejection happens before
classification is attempted), then classification, then the grant that is
handed to storage. `response` supplies the remote-model outcome that
classification of this item would observe. -/
def ingestOne (tx : Taxonomy) (response : Option (List String))
    (name description : String) : IngestOutcome :=
  if validGrantInput name description then
    .persisted { name := name, description := description,
                 tags := (classify tx response name description).tags }
  else .validationError

/-- Modelled from the spec: the missing backend batch ingestion — every
item of the batch is processed independently and gets its own per-item
outcome; one item's validation failure never aborts the rest.
`response` maps each item's text to the remote-model outcome it observes. -/
def ingestBatch (tx : Taxonomy) (response : String → String → Option (List String))
    (items : List (String × String)) : List IngestOutcome :=
  items.map (fun it => ingestOne tx (response it.1 it.2) it.1 it.2)

/-- Modelled from the spec: the missing backend listing entrypoint's
parsing of the optional `tags` query parameter — the comma-separated list
is split, each piece trimmed, blanks dropped, before expansion. -/
def parseTagsParam (s : String) : List String :=
  ((splitOnChar ',' s).map strTrim).filter (fun t => t ≠ "")

/-! ### Frontend: `GrantsTable.tsx` -/

/-- Query parameters of the frontend's listing request, as built by
`fetchGrants` in `GrantsTable.tsx`: both parameters are optional; when
present, `tags` is the comma-separated selection and `include_synonyms`
is the literal string `"true"`. -/
structure GrantsParams where
  tags : Option String
  include_synonyms : Option String
deriving DecidableEq

/-- Embedded from `fetchGrants` (`GrantsTable.tsx`): `params.tags` is set to
`currentTags.join(",")` only when the current tag list is non-empty, and
`params.include_synonyms` is set to `"true"` only when the synonym checkbox
is checked. -/
def fetchGrantsParams (currentTags : List String) (includeSynonyms : Bool) :
    GrantsParams :=
  { tags := if currentTags.length > 0 then some (jsJoin currentTags) else none,
    include_synonyms := if includeSynonyms then some "true" else none }

/-- Embedded from `fetchEffectiveTags` (`GrantsTable.tsx`): with no base
tags and the synonym checkbox off, the selected (effective) tag list is set
to `[]` without contacting the server; otherwise it is set to the server's
`effective_tags` response, here supplied by the `server` argument. -/
def fetchEffectiveTagsResult (server : List String → Bool → List String)
    (baseTags : List String) (shouldIncludeSynonyms : Bool) : List String :=
  if baseTags.length = 0 && !shouldIncludeSynonyms then []
  else server baseTags shouldIncludeSynonyms

/-- Embedded from `toggleTag` (`GrantsTable.tsx`): if the tag is already in
the explicit selection every occurrence of it is filtered out, otherwise it
is appended at the end. -/
def toggleTag (tag : String) (prev : List String) : List String :=
  if tag ∈ prev then prev.filter (fun t => t ≠ tag) else prev ++ [tag]

/-! ### Frontend: `AdminTab.tsx` -/

/-- One raw item of the user-supplied bulk-JSON array, as observed by
`handleJsonFileChange`. A field is `none` when absent or null (the JS
`?? ""` / falsiness branch); `some s` carries the JS `String(...)`
conversion of a present value. URL fields model the array case (a present
non-array value is wrapped into a one-element array by the source, which
the one-element list covers). -/
structure RawItem where
  grant_name : Option String
  grant_description : Option String
  website_urls : Option (List String)
  document_urls : Option (List String)

/-- One item of the payload posted to `POST /grants` by the bulk-JSON path. -/
structure PayloadItem where
  grant_name : String
  grant_description : String
  website_urls : Option (List String)
  document_urls : Option (List String)
deriving DecidableEq

/-- Embedded from `handleJsonFileChange` (`AdminTab.tsx`), lines building
each payload item: `grant_name` and `grant_description` are
`String(item.field ?? "").trim()`; each URL array, when present, is
trimmed element-wise with blanks dropped. -/
def buildPayloadItem (it : RawItem) : PayloadItem :=
  { grant_name := strTrim (it.grant_name.getD ""),
    grant_description := strTrim (it.grant_description.getD ""),
    website_urls := it.website_urls.map
      (fun us => (us.map strTrim).filter (fun u => u ≠ "")),
    document_urls := it.document_urls.map
      (fun us => (us.map strTrim).filter (fun u => u ≠ "")) }

/-- Embedded from `handleJsonFileChange` (`AdminTab.tsx`): the payload is
`parsed.map(item => ...)` — every array element is mapped, none is dropped
or rejected client-side. -/
def buildJsonPayload (items : List RawItem) : List PayloadItem :=
  items.map buildPayloadItem

/-- Recogniser for the tail `\.pdf(\?.*)?$` of `pdfUrlRegex` on a
lower-cased character list: the literal `.pdf` followed by the end of the
string or by `?` and arbitrary non-newline characters. -/
def dotPdfOpt : List Char → Bool
  | '.' :: 'p' :: 'd' :: 'f' :: rest =>
    match rest with
    | [] => true
    | '?' :: q => q.all (fun c => c ≠ '\n')
    | _ => false
  | _ => false

/-- Recogniser for `.+\.pdf(\?.*)?$`: one or more non-newline characters,
then the `.pdf` tail. -/
def bodyThenPdf : List Char → Bool
  | [] => false
  | c :: rest => (c ≠ '\n') && (dotPdfOpt rest || bodyThenPdf rest)

/-- Strip the scheme `https?:\/\/` off a lower-cased character list. -/
def stripScheme : List Char → Option (List Char)
  | 'h' :: 't' :: 't' :: 'p' :: 's' :: ':' :: '/' :: '/' :: r => some r
  | 'h' :: 't' :: 't' :: 'p' :: ':' :: '/' :: '/' :: r => some r
  | _ => none

/-- Embedded from `AdminTab.tsx`:
`pdfUrlRegex = /^https?:\/\/.+\.pdf(\?.*)?$/i` — case-insensitivity is
modelled by lower-casing the input before matching the lower-case
literals. -/
def matchPdfUrl (s : String) : Bool :=
  match stripScheme (lowerChars s) with
  | some rest => bodyThenPdf rest
  | none => false

/-- Lines of a textarea value as the source processes them: split on
newlines, trim each line, drop blanks (used both by the `document_urls`
Zod refinement and by `handleManualSubmit`). -/
def linesOf (v : String) : List String :=
  ((splitOnChar '\n' v).map strTrim).filter (fun u => u ≠ "")

/-- Embedded from `GrantFormSchema` (`AdminTab.tsx`), the `document_urls`
refinement: absent or blank-after-trim values are accepted; otherwise every
non-blank trimmed line must match `pdfUrlRegex`. -/
def documentUrlsValid : Option String → Bool
  | none => true
  | some v => if strTrim v = "" then true else (linesOf v).all matchPdfUrl

/-- Embedded from `handleManualSubmit` (`AdminTab.tsx`): the
`document_urls` array of the posted payload — present only when the value
is non-blank after trimming, and then equal to the value's non-blank
trimmed lines. -/
def submitDocumentUrls (val : Option String) : Option (List String) :=
  match val with
  | none => none
  | some v => if strTrim v = "" then none else some (linesOf v)

/-! ### A sample taxonomy (the spec's §8 scenario data), used by witnesses -/

/-- The spec's §8 scenario Taxonomy: `Irrigation` with synonym
`WaterManagement`, and `SoilHealth` with no synonyms. -/
def sampleTaxonomy : Taxonomy :=
  { tags := ["Irrigation", "WaterManagement", "SoilHealth"],
    synMap := [("Irrigation", ["WaterManagement"])] }

/-! ### Helper lemmas -/

theorem canonicalize_mem {tx : Taxonomy} {s t : String}
    (h : canonicalize tx s = some t) : t ∈ tx.tags :=
  List.mem_of_find?_eq_some h

theorem canonicalize_self {tx : Taxonomy} (hwf : tx.WF) {t : String}
    (ht : t ∈ tx.tags) : canonicalize tx t = some t := by
  have hsome : (tx.tags.find? (fun u => normalize u = normalize t)).isSome :=
    List.find?_isSome.mpr ⟨t, ht, by simp⟩
  obtain ⟨u, hu⟩ := Option.isSome_iff_exists.mp hsome
  have hmem : u ∈ tx.tags := List.mem_of_find?_eq_some hu
  have hpred : normalize u = normalize t := by
    have := List.find?_some hu
    simpa using this
  have hut : u = t := by
    by_contra hne
    exact (List.Pairwise.forall (fun a b h => (h ∘ Eq.symm)) hwf.1 hmem ht hne) hpred
  rw [canonicalize, hu, hut]

theorem syn_subset_tags {tx : Taxonomy} (hwf : tx.WF) {c t : String}
    (h : t ∈ tx.syn c) : t ∈ tx.tags := by
  rw [Taxonomy.syn, List.mem_toFinset, Taxonomy.synList, List.mem_append] at h
  rcases h with h | h
  · rw [Taxonomy.storedSyn, List.mem_flatMap] at h
    obtain ⟨p, hp, htp⟩ := h
    exact ((hwf.2 p (List.mem_of_mem_filter hp)).2.2) t htp
  · rw [List.mem_map] at h
    obtain ⟨p, hp, rfl⟩ := h
    exact (hwf.2 p (List.mem_of_mem_filter hp)).1

theorem canonSet_of_canonical {tx : Taxonomy} (hwf : tx.WF) {E : Finset String}
    (hE : ∀ t ∈ E, t ∈ tx.tags) : canonSet tx E = E := by
  ext x
  simp only [canonSet, Finset.mem_biUnion, Option.mem_toFinset, Option.mem_def]
  constructor
  · rintro ⟨t, ht, hx⟩
    rw [canonicalize_self hwf (hE t ht)] at hx
    exact Option.some_injective _ hx ▸ ht
  · intro hx
    exact ⟨x, hx, canonicalize_self hwf (hE x hx)⟩

theorem canonSet_subset_tags (tx : Taxonomy) (S : Finset String) :
    ∀ t ∈ canonSet tx S, t ∈ tx.tags := by
  intro t ht
  simp only [canonSet, Finset.mem_biUnion, Option.mem_toFinset, Option.mem_def] at ht
  obtain ⟨s, _, hs⟩ := ht
  exact canonicalize_mem hs

/-! ### Claim C1 -/

/-- C1: for every grant `g` and every non-empty effective tag set `T`, the
FilterEngine predicate `matches g T` is true iff `T` is a subset of the
grant's tags — conjunctive (AND) semantics over the effective set. -/
theorem c1_matches_iff_subset (g : Grant) (T : Finset String) (hT : T ≠ ∅) :
    FilterEngine.matches g T = true ↔ T ⊆ g.tags := by
  rw [FilterEngine.matches, if_neg hT]
  exact decide_eq_true_iff

/-- Witness for C1 at a concrete grant and tag set. -/
theorem c1_matches_iff_subset_witness :
    ({"Irrigation"} : Finset String) ≠ ∅ ∧
      (FilterEngine.matches
          { name := "g", description := "d", tags := {"Irrigation", "SoilHealth"} }
          {"Irrigation"} = true ↔
        ({"Irrigation"} : Finset String) ⊆ {"Irrigation", "SoilHealth"}) :=
  ⟨by decide,
    c1_matches_iff_subset
      { name := "g", description := "d", tags := {"Irrigation", "SoilHealth"} }
      {"Irrigation"} (by decide)⟩

/-! ### Claim C6 -/

/-- C6: an empty explicit selection with the synonym checkbox off yields an
empty effective tag list without contacting the server; the listing request
then carries no `tags` parameter at all; and the FilterEngine treats the
empty effective set as "no filter": every grant matches. -/
theorem c6_empty_selection_no_filter :
    (∀ server : List String → Bool → List String,
        fetchEffectiveTagsResult server [] false = []) ∧
      (fetchGrantsParams [] false).tags = none ∧
      ∀ g : Grant, FilterEngine.matches g ∅ = true := by
  refine ⟨fun server => rfl, rfl, fun g => ?_⟩
  rw [FilterEngine.matches, if_pos rfl]

/-! ### Claim C10 -/

/-- C10: on a duplicate-free selection, `toggleTag t` applied twice restores
the original membership; the first application appends `t` if absent and
removes every occurrence of `t` if present; and the selection stays
duplicate-free after each application. -/
theorem c10_toggleTag_involution (tag : String) (prev : List String)
    (hnd : prev.Nodup) :
    (∀ t, t ∈ toggleTag tag (toggleTag tag prev) ↔ t ∈ prev) ∧
      (toggleTag tag prev).Nodup ∧
      (toggleTag tag (toggleTag tag prev)).Nodup ∧
      (tag ∈ prev → toggleTag tag prev = prev.filter (fun t => t ≠ tag)) ∧
      (tag ∉ prev → toggleTag tag prev = prev ++ [tag]) := by
  by_cases h : tag ∈ prev
  · have h1 : toggleTag tag prev = prev.filter (fun t => t ≠ tag) := if_pos h
    have hnotin : tag ∉ toggleTag tag prev := by
      rw [h1]
      simp
    have h2 : toggleTag tag (toggleTag tag prev)
        = prev.filter (fun t => t ≠ tag) ++ [tag] := by
      rw [toggleTag, if_neg hnotin, h1]
    refine ⟨?_, ?_, ?_, fun _ => h1, fun hn => absurd h hn⟩
    · intro t
      rw [h2]
      simp only [List.mem_append, List.mem_filter, List.mem_singleton,
        decide_eq_true_eq]
      constructor
      · rintro (⟨ht, _⟩ | rfl)
        · exact ht
        · exact h
      · intro ht
        by_cases he : t = tag
        · exact Or.inr he
        · exact Or.inl ⟨ht, by simpa using he⟩
    · rw [h1]
      exact hnd.filter _
    · rw [h2]
      refine List.Nodup.append (hnd.filter _) (List.nodup_singleton tag) ?_
      intro a ha hb
      rw [List.mem_singleton] at hb
      subst hb
      rw [List.mem_filter] at ha
      simpa using ha.2
  · have h1 : toggleTag tag prev = prev ++ [tag] := if_neg h
    have hin : tag ∈ toggleTag tag prev := by
      rw [h1]
      simp
    have hfilter : prev.filter (fun t => t ≠ tag) = prev :=
      List.filter_eq_self.mpr (fun a ha => by
        simp only [ne_eq, decide_eq_true_eq]
        intro he
        exact h (he ▸ ha))
    have h2 : toggleTag tag (toggleTag tag prev) = prev := by
      rw [toggleTag, if_pos hin, h1, List.filter_append, hfilter]
      simp
    refine ⟨?_, ?_, ?_, fun hc => absurd hc h, fun _ => h1⟩
    · intro t
      rw [h2]
    · rw [h1]
      refine List.Nodup.append hnd (List.nodup_singleton tag) ?_
      intro a ha hb
      rw [List.mem_singleton] at hb
      exact h (hb ▸ ha)
    · rw [h2]
      exact hnd

/-- Witness for C10 at a concrete selection and tag. -/
theorem c10_toggleTag_involution_witness :
    (∀ t, t ∈ toggleTag "b" (toggleTag "b" ["a", "b"]) ↔ t ∈ ["a", "b"]) ∧
      (toggleTag "b" ["a", "b"]).Nodup ∧
      (toggleTag "b" (toggleTag "b" ["a", "b"])).Nodup ∧
      ("b" ∈ ["a", "b"] →
        toggleTag "b" ["a", "b"] = ["a", "b"].filter (fun t => t ≠ "b")) ∧
      ("b" ∉ ["a", "b"] → toggleTag "b" ["a", "b"] = ["a", "b"] ++ ["b"]) :=
  c10_toggleTag_involution "b" ["a", "b"] (by decide)

/-! ### Claim C2 -/

/-- C2: for a well-formed Taxonomy whose synonym relation is flat (the
invariant the spec states the stored relation satisfies and relies on),
one-hop synonym expansion is idempotent: expanding an already-expanded
explicit set with `includeSynonyms = true` returns it unchanged. -/
theorem c2_expand_idempotent (tx : Taxonomy) (hwf : tx.WF) (hflat : tx.Flat)
    (S : Finset String) :
    expand tx (expand tx S true) true = expand tx S true := by
  have hexp : ∀ T : Finset String,
      expand tx T true = canonSet tx T ∪ (canonSet tx T).biUnion tx.syn :=
    fun T => rfl
  set C := canonSet tx S with hC
  set E := C ∪ C.biUnion tx.syn with hE
  have hCtags : ∀ t ∈ C, t ∈ tx.tags := canonSet_subset_tags tx S
  have hEtags : ∀ t ∈ E, t ∈ tx.tags := by
    intro t ht
    rw [hE, Finset.mem_union] at ht
    rcases ht with ht | ht
    · exact hCtags t ht
    · rw [Finset.mem_biUnion] at ht
      obtain ⟨c, _, hc⟩ := ht
      exact syn_subset_tags hwf hc
  have hcanonE : canonSet tx E = E := canonSet_of_canonical hwf hEtags
  have hsub : E.biUnion tx.syn ⊆ E := by
    intro x hx
    rw [Finset.mem_biUnion] at hx
    obtain ⟨t, ht, hxt⟩ := hx
    rw [hE, Finset.mem_union] at ht
    rcases ht with ht | ht
    · exact Finset.mem_union_right _ (Finset.mem_biUnion.mpr ⟨t, ht, hxt⟩)
    · rw [Finset.mem_biUnion] at ht
      obtain ⟨c, hc, htc⟩ := ht
      have := hflat c (hCtags c hc) t htc hxt
      rw [Finset.mem_insert] at this
      rcases this with rfl | hxc
      · exact Finset.mem_union_left _ hc
      · exact Finset.mem_union_right _ (Finset.mem_biUnion.mpr ⟨c, hc, hxc⟩)
  calc expand tx E true = canonSet tx E ∪ (canonSet tx E).biUnion tx.syn :=
        hexp E
    _ = E ∪ E.biUnion tx.syn := by rw [hcanonE]
    _ = E := Finset.union_eq_left.mpr hsub

/-- Witness for C2: the spec's §8 scenario taxonomy and the explicit
selection `{WaterManagement}`. -/
theorem c2_expand_idempotent_witness :
    expand sampleTaxonomy (expand sampleTaxonomy {"WaterManagement"} true) true
      = expand sampleTaxonomy {"WaterManagement"} true :=
  c2_expand_idempotent sampleTaxonomy (by decide) (by decide) {"WaterManagement"}

/-! ### Claim C3 -/

/-- C3: on either path — remote-model response validation (`some cands`),
where every candidate failing canonicalization is dropped, or the heuristic
fallback (`none`) — the classifier's tag set is a subset of the Taxonomy's
canonical tag list; classification never returns an unknown tag. -/
theorem c3_classify_subset_taxonomy (tx : Taxonomy)
    (response : Option (List String)) (name description : String) :
    (classify tx response name description).tags ⊆ tx.tags.toFinset := by
  intro t ht
  rw [List.mem_toFinset]
  cases response with
  | some cands =>
    simp only [classify, validateResponse, List.mem_toFinset,
      List.mem_filterMap] at ht
    obtain ⟨s, _, hs⟩ := ht
    exact canonicalize_mem hs
  | none =>
    simp only [classify, heuristicClassify, List.mem_toFinset,
      List.mem_filter] at ht
    exact ht.1

/-! ### Claim C4 -/

/-- C4: ingestion of a single item rejects it with a validation error when
the name or the description is empty after trimming — before classification
is attempted — and, conversely, persists it (with the classifier's tags)
when both are non-empty after trimming. -/
theorem c4_ingest_validation (tx : Taxonomy) (response : Option (List String))
    (name description : String) :
    (strTrim name = "" ∨ strTrim description = "" →
        ingestOne tx response name description = .validationError) ∧
      (strTrim name ≠ "" → strTrim description ≠ "" →
        ingestOne tx response name description =
          .persisted ⟨name, description,
            (classify tx response name description).tags⟩) := by
  constructor
  · intro h
    have hv : validGrantInput name description = false := by
      rw [validGrantInput]
      rcases h with h | h <;> simp [h]
    rw [ingestOne, hv]
    simp
  · intro h1 h2
    have hv : validGrantInput name description = true := by
      rw [validGrantInput]
      simp [h1, h2]
    rw [ingestOne, hv]
    simp

/-- Witness for C4: a whitespace-only name is rejected; a well-formed item
is persisted with its classified tags. -/
theorem c4_ingest_validation_witness :
    ingestOne sampleTaxonomy none "  " "desc" = .validationError ∧
      ingestOne sampleTaxonomy none "Drip systems" "funds drip irrigation"
        = .persisted ⟨"Drip systems", "funds drip irrigation",
            (classify sampleTaxonomy none "Drip systems"
              "funds drip irrigation").tags⟩ :=
  ⟨(c4_ingest_validation sampleTaxonomy none "  " "desc").1
      (Or.inl (by decide)),
    (c4_ingest_validation sampleTaxonomy none "Drip systems"
        "funds drip irrigation").2 (by decide) (by decide)⟩

/-! ### Claim C5 -/

/-- C5: batch ingestion of a mixed batch (some items failing validation,
some valid) produces one outcome per item — every valid item is persisted
with its own name and description, every invalid item is reported as a
per-item validation failure, and the batch is never rejected as a whole. -/
theorem c5_batch_partial_failure (tx : Taxonomy)
    (response : String → String → Option (List String))
    (items : List (String × String))
    (hbad : ∃ it ∈ items, validGrantInput it.1 it.2 = false)
    (hgood : ∃ it ∈ items, validGrantInput it.1 it.2 = true) :
    (ingestBatch tx response items).length = items.length ∧
      (∀ (i : Nat) (it : String × String),
        items[i]? = some it → validGrantInput it.1 it.2 = true →
        (ingestBatch tx response items)[i]? =
          some (.persisted ⟨it.1, it.2,
            (classify tx (response it.1 it.2) it.1 it.2).tags⟩)) ∧
      (∀ (i : Nat) (it : String × String),
        items[i]? = some it → validGrantInput it.1 it.2 = false →
        (ingestBatch tx response items)[i]? = some .validationError) := by
  refine ⟨List.length_map _ _, ?_, ?_⟩
  · intro i it hi hv
    rw [ingestBatch, List.getElem?_map _ _ _, hi]
    simp [ingestOne, hv]
  · intro i it hi hv
    rw [ingestBatch, List.getElem?_map _ _ _, hi]
    simp [ingestOne, hv]

/-- Witness for C5: the spec's §8 scenario — a batch of three grants where
the second has an empty name; items one and three are persisted, item two
is reported as a validation failure. -/
theorem c5_batch_partial_failure_witness :
    (ingestBatch sampleTaxonomy (fun _ _ => none)
        [("Grant A", "drip irrigation"), ("", "desc B"),
          ("Grant C", "soil study")]).length = 3 ∧
      (ingestBatch sampleTaxonomy (fun _ _ => none)
          [("Grant A", "drip irrigation"), ("", "desc B"),
            ("Grant C", "soil study")])[1]? = some .validationError ∧
      (ingestBatch sampleTaxonomy (fun _ _ => none)
          [("Grant A", "drip irrigation"), ("", "desc B"),
            ("Grant C", "soil study")])[0]? =
        some (.persisted ⟨"Grant A", "drip irrigation",
          (classify sampleTaxonomy none "Grant A" "drip irrigation").tags⟩) :=
  ⟨(c5_batch_partial_failure sampleTaxonomy (fun _ _ => none) _
      ⟨("", "desc B"), by decide, by decide⟩
      ⟨("Grant A", "drip irrigation"), by decide, by decide⟩).1,
    (c5_batch_partial_failure sampleTaxonomy (fun _ _ => none) _
      ⟨("", "desc B"), by decide, by decide⟩
      ⟨("Grant A", "drip irrigation"), by decide, by decide⟩).2.2
      1 ("", "desc B") rfl (by decide),
    (c5_batch_partial_failure sampleTaxonomy (fun _ _ => none) _
      ⟨("", "desc B"), by decide, by decide⟩
      ⟨("Grant A", "drip irrigation"), by decide, by decide⟩).2.1
      0 ("Grant A", "drip irrigation") rfl (by decide)⟩

/-! ### Claim C8 -/

/-- C8: the bulk-JSON payload keeps one item per input item (nothing is
rejected client-side), and each item's `grant_name` and `grant_description`
are the raw value (or `""` when the field is missing) with surrounding
whitespace trimmed — so a missing or whitespace-only name is sent as the
empty string, leaving non-emptiness enforcement to the server. -/
theorem c8_json_payload_trims (items : List RawItem) (it : RawItem)
    (hit : it ∈ items) :
    (buildJsonPayload items).length = items.length ∧
      buildPayloadItem it ∈ buildJsonPayload items ∧
      (buildPayloadItem it).grant_name = strTrim (it.grant_name.getD "") ∧
      (buildPayloadItem it).grant_description
        = strTrim (it.grant_description.getD "") :=
  ⟨List.length_map _ _, List.mem_map_of_mem buildPayloadItem hit, rfl, rfl⟩

/-- Witness for C8: a two-item batch whose first item has no `grant_name`
and a whitespace-padded description; it is still sent, with an empty name. -/
theorem c8_json_payload_trims_witness :
    (buildJsonPayload [⟨none, some " d ", none, none⟩,
        ⟨some "G", some "x", none, none⟩]).length = 2 ∧
      buildPayloadItem ⟨none, some " d ", none, none⟩ ∈
        buildJsonPayload [⟨none, some " d ", none, none⟩,
          ⟨some "G", some "x", none, none⟩] ∧
      (buildPayloadItem (⟨none, some " d ", none, none⟩ : RawItem)).grant_name
        = strTrim ((none : Option String).getD "") ∧
      (buildPayloadItem (⟨none, some " d ", none, none⟩ : RawItem)).grant_description
        = strTrim ((some " d " : Option String).getD "") :=
  c8_json_payload_trims
    [⟨none, some " d ", none, none⟩, ⟨some "G", some "x", none, none⟩]
    ⟨none, some " d ", none, none⟩ (List.mem_cons_self _ _)

/-! ### Claim C9 -/

/-- C9: the `document_urls` form value passes the schema's refinement iff
it is absent or blank after trimming, or every non-blank trimmed line
matches `pdfUrlRegex` (`^https?:\/\/.+\.pdf(\?.*)?$`, case-insensitive);
consequently every document URL that the submit handler posts matches that
pattern. -/
theorem c9_document_urls_pdf (val : Option String) :
    (documentUrlsValid val = true ↔
        val = none ∨ ∃ v, val = some v ∧
          (strTrim v = "" ∨ ∀ u ∈ linesOf v, matchPdfUrl u = true)) ∧
      (documentUrlsValid val = true →
        ∀ us, submitDocumentUrls val = some us →
          ∀ u ∈ us, matchPdfUrl u = true) := by
  cases val with
  | none =>
    refine ⟨⟨fun _ => Or.inl rfl, fun _ => rfl⟩, ?_⟩
    intro _ us hus
    exact absurd hus (by rw [submitDocumentUrls]; exact fun h => nomatch h)
  | some v =>
    by_cases hv : strTrim v = ""
    · refine ⟨⟨fun _ => Or.inr ⟨v, rfl, Or.inl hv⟩, fun _ => ?_⟩, ?_⟩
      · rw [documentUrlsValid, if_pos hv]
      · intro _ us hus
        rw [submitDocumentUrls, if_pos hv] at hus
        exact absurd hus (fun h => nomatch h)
    · have hval : documentUrlsValid (some v) = (linesOf v).all matchPdfUrl := by
        rw [documentUrlsValid, if_neg hv]
      constructor
      · rw [hval, List.all_eq_true]
        constructor
        · intro h
          exact Or.inr ⟨v, rfl, Or.inr h⟩
        · rintro (h | ⟨w, hw, h⟩)
          · exact absurd h (fun h => nomatch h)
          · rcases h with h | h
            · exact absurd (Option.some_injective _ hw ▸ h) hv
            · exact fun u hu => h u (Option.some_injective _ hw ▸ hu)
      · intro hvalid us hus
        rw [submitDocumentUrls, if_neg hv] at hus
        have husv : us = linesOf v := (Option.some_injective _ hus).symm
        rw [hval, List.all_eq_true] at hvalid
        intro u hu
        exact hvalid u (husv ▸ hu)

/-- Witness for C9: a concrete accepted value whose single line is posted
and matches the PDF pattern. -/
theorem c9_document_urls_pdf_witness :
    matchPdfUrl "https://example.com/doc.pdf?v=1" = true :=
  (c9_document_urls_pdf (some "https://example.com/doc.pdf?v=1")).2
    (by decide) ["https://example.com/doc.pdf?v=1"] (by decide)
    "https://example.com/doc.pdf?v=1" (by decide)

/-! ### Claim C7 -/

theorem splitOnCharAux_no_sep (sep : Char) {l : List Char} (acc : List Char)
    (h : sep ∉ l) : splitOnCharAux sep l acc = [acc.reverse ++ l] := by
  induction l generalizing acc with
  | nil => simp [splitOnCharAux]
  | cons c cs ih =>
    have hc : ¬c = sep := fun hh => h (hh ▸ List.mem_cons_self c cs)
    rw [splitOnCharAux, if_neg hc, ih _ (fun hm => h (List.mem_cons_of_mem c hm))]
    simp

theorem splitOnCharAux_append_sep (sep : Char) {l : List Char}
    (r acc : List Char) (h : sep ∉ l) :
    splitOnCharAux sep (l ++ sep :: r) acc
      = (acc.reverse ++ l) :: splitOnCharAux sep r [] := by
  induction l generalizing acc with
  | nil => simp [splitOnCharAux]
  | cons c cs ih =>
    have hc : ¬c = sep := fun hh => h (hh ▸ List.mem_cons_self c cs)
    rw [List.cons_append, splitOnCharAux, if_neg hc,
      ih _ (fun hm => h (List.mem_cons_of_mem c hm))]
    simp

theorem splitOnChar_jsJoin {ts : List String} (hne : ts ≠ [])
    (h : ∀ t ∈ ts, ',' ∉ t.data) : splitOnChar ',' (jsJoin ts) = ts := by
  induction ts with
  | nil => exact absurd rfl hne
  | cons t ts ih =>
    cases ts with
    | nil =>
      rw [jsJoin, splitOnChar,
        splitOnCharAux_no_sep ',' [] (h t (List.mem_cons_self t []))]
      rfl
    | cons t' rest =>
      have hj : jsJoin (t :: t' :: rest) = t ++ "," ++ jsJoin (t' :: rest) := rfl
      have hdata : (jsJoin (t :: t' :: rest)).data
          = t.data ++ ',' :: (jsJoin (t' :: rest)).data := by
        rw [hj, String.data_append _ _, String.data_append _ _]
        simp
      rw [splitOnChar, hdata,
        splitOnCharAux_append_sep ',' _ [] (h t (List.mem_cons_self t _))]
      rw [List.map_cons]
      have htail : splitOnChar ',' (jsJoin (t' :: rest)) = t' :: rest :=
        ih (List.cons_ne_nil t' rest) (fun u hu => h u (List.mem_cons_of_mem t hu))
      rw [splitOnChar] at htail
      rw [htail]
      rfl

/-- C7: for a non-empty selection, the frontend listing request carries a
single `tags` parameter equal to the selected tags joined with `,` and an
`include_synonyms` parameter equal to the string `"true"` exactly when the
synonym checkbox is set; and the listing entrypoint's split-and-trim
parsing recovers exactly the selected tag list from that joined parameter
(for tags that are non-blank, trimmed, and comma-free, as canonical tags
are). -/
theorem c7_listing_params_roundtrip (ts : List String) (inc : Bool)
    (hne : ts ≠ [])
    (hts : ∀ t ∈ ts, t ≠ "" ∧ strTrim t = t ∧ ',' ∉ t.data) :
    (fetchGrantsParams ts inc).tags = some (jsJoin ts) ∧
      (fetchGrantsParams ts inc).include_synonyms
        = (if inc then some "true" else none) ∧
      parseTagsParam (jsJoin ts) = ts := by
  refine ⟨?_, rfl, ?_⟩
  · have hlen : ts.length > 0 := List.length_pos.mpr hne
    rw [fetchGrantsParams]
    simp [hlen]
  · rw [parseTagsParam, splitOnChar_jsJoin hne (fun t ht => (hts t ht).2.2)]
    have hmap : ts.map strTrim = ts :=
      List.map_congr_left (fun t ht => (hts t ht).2.1) |>.trans (List.map_id ts)
    rw [hmap]
    exact List.filter_eq_self.mpr (fun t ht => by
      simp only [ne_eq, decide_eq_true_eq]
      exact (hts t ht).1)

/-- Witness for C7 at the concrete selection `[Irrigation, SoilHealth]`
with the synonym checkbox set. -/
theorem c7_listing_params_roundtrip_witness :
    (fetchGrantsParams ["Irrigation", "SoilHealth"] true).tags
        = some (jsJoin ["Irrigation", "SoilHealth"]) ∧
      (fetchGrantsParams ["Irrigation", "SoilHealth"] true).include_synonyms
        = (if true then some "true" else none) ∧
      parseTagsParam (jsJoin ["Irrigation", "SoilHealth"])
        = ["Irrigation", "SoilHealth"] :=
  c7_listing_params_roundtrip ["Irrigation", "SoilHealth"] true (by decide)
    (by decide)

end GrantTagging
